import Mathlib

/-!
# DraftNote — formal model of `src/App.tsx`

A shallow embedding of the editable-document core of the DraftNote
application: the export pipeline (`handleExportWord`), the image paste
handler (`handlePaste`), cursor save/restore, the composition (IME)
guard (`handleContentChange` / `handleCompositionEnd`), and the
debounced `localStorage` autosave effect.

Numbers are modelled with `Nat`/`Int`/`Rat` (the sizing arithmetic in
the source stays well inside the exactly-representable range of JS
doubles), DOM trees as an inductive type, and JS string operations
(`trim`, `split`, `startsWith`) as executable Lean functions over
`String`.
-/

namespace DraftNote

/-! ## JS string primitives -/

/-- Characters stripped by `String.prototype.trim` (ECMA-262 WhiteSpace
and LineTerminator code points; the ASCII part plus NBSP, BOM, LS, PS). -/
def isJsSpace (c : Char) : Bool :=
  c = ' ' || c = '\t' || c = '\n' || c = '\r' ||
  c.toNat = 11 || c.toNat = 12 || c.toNat = 0xA0 || c.toNat = 0xFEFF ||
  c.toNat = 0x2028 || c.toNat = 0x2029

/-- Model of `s.trim()`: drop leading and trailing whitespace. -/
def jsTrim (s : String) : String :=
  String.mk (((s.data.dropWhile isJsSpace).reverse.dropWhile isJsSpace).reverse)

/-- Helper for `jsSplitNl`: split a character list at every newline,
keeping empty segments, exactly as `"…".split("\n")` does. -/
def splitNlAux : List Char → List Char → List (List Char)
  | [], acc => [acc.reverse]
  | '\n' :: rest, acc => acc.reverse :: splitNlAux rest []
  | c :: rest, acc => splitNlAux rest (c :: acc)

/-- Model of `text.split("\n")`. -/
def jsSplitNl (s : String) : List String :=
  (splitNlAux s.data []).map String.mk

/-- Model of `s.startsWith(p)`. -/
def jsStartsWith (p s : String) : Bool :=
  p.data.isPrefixOf s.data

/-- Model of `src.split(",")[1]` as used on a data URI: the second
comma-separated segment (the base64 payload).  The `atob` byte decoding
that follows in the source is injective on valid base64, so the payload
string stands for the decoded image bytes. -/
def dataPayload (s : String) : String :=
  match s.data.dropWhile (fun c => !(c = ',')) with
  | [] => ""
  | _ :: rest => String.mk (rest.takeWhile (fun c => !(c = ',')))

/-! ## Image export sizing (`handleExportWord`, the aspect-fit block) -/

/-- Model of `Math.round`: floor of `q + 1/2` (halves round up). -/
def jsRound (q : ℚ) : ℤ := ⌊q + 1/2⌋

/-- Model of `a || b || dflt` on JS numbers as used for
`naturalWidth || width || 400` (0 is falsy). -/
def resolveDim (intrinsic prop dflt : ℕ) : ℕ :=
  if intrinsic ≠ 0 then intrinsic else if prop ≠ 0 then prop else dflt

/-- The aspect-fit computation of `handleExportWord`: if the original
size exceeds 600×450 in either dimension, scale both dimensions by
`min (600/w) (450/h)` and round; otherwise keep the original size. -/
def computeExportSize (ow oh : ℕ) : ℤ × ℤ :=
  if 600 < ow ∨ 450 < oh then
    let ratio : ℚ := min ((600 : ℚ) / (ow : ℚ)) ((450 : ℚ) / (oh : ℚ))
    (jsRound ((ow : ℚ) * ratio), jsRound ((oh : ℚ) * ratio))
  else ((ow : ℤ), (oh : ℤ))

/-! ## The content tree

`handleExportWord` parses the canonical snapshot markup into a detached
`div` and walks its children.  We model the parsed tree directly.  An
element carries its tag name, attributes, class list, the four numeric
size properties the exporter reads off an `HTMLImageElement`
(`naturalWidth`, `naturalHeight`, `width`, `height` — zero when absent,
matching the DOM default), and its children. -/

structure ImgDims where
  naturalWidth : ℕ
  naturalHeight : ℕ
  width : ℕ
  height : ℕ
deriving DecidableEq, Repr

inductive HNode where
  | text (data : String)
  | elem (tagName : String) (attrs : List (String × String))
      (classList : List String) (dims : ImgDims) (children : List HNode)
deriving Repr

/-- Model of `element.getAttribute(name)`. -/
def getAttr (attrs : List (String × String)) (name : String) : Option String :=
  (attrs.find? (fun p => p.1 = name)).map Prod.snd

mutual
/-- Model of `node.textContent`: concatenated data of all descendant
text nodes, in tree order. -/
def textContent : HNode → String
  | .text s => s
  | .elem _ _ _ _ children => textContentList children
def textContentList : List HNode → String
  | [] => ""
  | n :: ns => textContent n ++ textContentList ns
end

mutual
/-- Model of `element.querySelector("img")`: the attributes and size
properties of the first `IMG` descendant in tree order, if any. -/
def firstImg : HNode → Option (List (String × String) × ImgDims)
  | .text _ => none
  | .elem tag attrs _ dims children =>
      if tag = "IMG" then some (attrs, dims) else firstImgList children
def firstImgList : List HNode → Option (List (String × String) × ImgDims)
  | [] => none
  | n :: ns =>
      match firstImg n with
      | some r => some r
      | none => firstImgList ns
end

/-! ## The portable document model -/

/-- A run inside an exported paragraph: either a `TextRun` or an
`ImageRun` (payload bytes stood for by the base64 text, plus the
export transformation size). -/
inductive Run where
  | text (s : String)
  | image (data : String) (width height : ℤ)
deriving DecidableEq, Repr

/-- An exported paragraph is its list of child runs. -/
abbrev Para := List Run

/-- The image branch shared by the bare-`IMG` case and the
`span.inline-image` case of `processNode`: emit one image paragraph
when `src` is a `data:image/` URI, nothing otherwise. -/
def imgParagraphs (attrs : List (String × String)) (dims : ImgDims) : List Para :=
  match getAttr attrs "src" with
  | some src =>
      if jsStartsWith "data:image/" src then
        let ow := resolveDim dims.naturalWidth dims.width 400
        let oh := resolveDim dims.naturalHeight dims.height 300
        [[Run.image (dataPayload src) (computeExportSize ow oh).1 (computeExportSize ow oh).2]]
      else []
  | none => []

mutual
/-- Model of `processNode` in `handleExportWord`.  Paragraphs are
returned in push order (the source appends to a shared `children`
array during a depth-first walk). -/
def processNode : HNode → List Para
  | .text s =>
      let t := jsTrim s
      if t = "" then []
      else (jsSplitNl t).filterMap
        (fun line => if jsTrim line = "" then none else some [Run.text line])
  | .elem tag attrs classes dims children =>
      if tag = "IMG" then imgParagraphs attrs dims
      else if tag = "SPAN" ∧ "inline-image" ∈ classes then
        match firstImgList children with
        | some (attrs2, dims2) => imgParagraphs attrs2 dims2
        | none => []
      else if tag = "DIV" ∨ tag = "P" then processNodes children
      else
        let t := jsTrim (textContentList children)
        if t = "" then [] else [[Run.text t]]
def processNodes : List HNode → List Para
  | [] => []
  | n :: ns => processNode n ++ processNodes ns
end

/-- The full export: walk every top-level child of the parsed snapshot;
if no paragraph was produced, fall back to a single one-space run so the
document is never empty (`if (children.length === 0)` in the source). -/
def exportDocument (snapshot : List HNode) : List Para :=
  let ps := processNodes snapshot
  if ps = [] then [[Run.text " "]] else ps

/-! ## Snapshot and export entry point -/

/-- `DraftContent` from the source: the canonical snapshot markup plus
its last-modified time (`Date.now()`), as held in the `content` React
state and written to `localStorage`. -/
structure DraftContent where
  htmlContent : String
  timestamp : ℕ
deriving DecidableEq, Repr

/-- The fixed `localStorage` key. -/
def STORAGE_KEY : String := "draftNote_content"

/-- The ambient interactive state `handleExportWord` *could* have read
but does not: the live selection and the focus state of the editable
region. -/
structure EditorEnv where
  selection : Option (ℕ × ℕ)
  editorFocused : Bool

/-- Model of `handleExportWord` up to the paragraph list handed to the
`docx` serializer: it re-parses `content.htmlContent` into a detached
`div` (here: the parsed `snapshot` tree) and never touches the live
selection or focus state carried by `env`. -/
def handleExportWord (snapshot : List HNode) (env : EditorEnv) : List Para :=
  exportDocument snapshot

/-! ## Image paste (`handlePaste`, lines 216–233)

The DOM `Range` operations act on the sibling list at the insertion
point: `deleteContents` removes the selected slice `[selStart, selEnd)`,
`insertNode` inserts at the collapsed start, and each `setStartAfter`
moves the insertion point past the node just inserted.  The caret index
is a position in the resulting sibling list. -/

/-- The zero-width space sentinel (`"​"` in the source). -/
def zwsp : String := "\u200B"

/-- Model of the widget built by `handlePaste`: a non-editable
`span.inline-image` wrapper holding the `img` and its delete button. -/
def buildImageWidget (imageId base64 alt : String) (dims : ImgDims) : HNode :=
  .elem "SPAN" [("data-image-id", imageId), ("contenteditable", "false")]
    ["inline-image"] ⟨0, 0, 0, 0⟩
    [ .elem "IMG" [("src", base64), ("alt", alt)] [] dims [],
      .elem "BUTTON" [] ["inline-image-delete"] ⟨0, 0, 0, 0⟩ [] ]

/-- Model of the splice performed by `handlePaste`: delete the selected
content, insert the widget, then the zero-width space, then the plain
space, and collapse the caret after the space. Returns the new sibling
list and the caret index. -/
def insertImageWidget (siblings : List HNode) (selStart selEnd : ℕ)
    (widget : HNode) : List HNode × ℕ :=
  (siblings.take selStart
     ++ widget :: HNode.text zwsp :: HNode.text " " :: siblings.drop selEnd,
   selStart + 3)

/-! ## Cursor save/restore (`saveCursorPosition` / `restoreCursorPosition`)

The editable content is abstracted as a list of `(node id, length)`
pairs; an anchor refers to container nodes by id.  `Range.setStart` and
`Range.setEnd` throw when the container is gone or the offset exceeds
the container's length — exactly the failure the `try`/`catch` in
`restoreCursorPosition` guards against. -/

/-- A captured anchor: `startContainer`/`startOffset` and
`endContainer`/`endOffset` as saved by `saveCursorPosition`. -/
structure CursorPosition where
  startContainer : ℕ
  startOffset : ℕ
  endContainer : ℕ
  endOffset : ℕ
deriving DecidableEq, Repr

/-- The selection state re-established by a restore (a DOM `Range`). -/
structure RangeState where
  startContainer : ℕ
  startOffset : ℕ
  endContainer : ℕ
  endOffset : ℕ
deriving DecidableEq, Repr

/-- Length of the node with the given id, if it is still in the tree. -/
def nodeLen (tree : List (ℕ × ℕ)) (id : ℕ) : Option ℕ :=
  (tree.find? (fun p => p.1 = id)).map Prod.snd

/-- Model of `range.setStart(...); range.setEnd(...)`: fails (throws)
when a referenced container has been removed from the tree or an offset
is out of range. -/
def trySetRange (tree : List (ℕ × ℕ)) (p : CursorPosition) :
    Except Unit RangeState :=
  match nodeLen tree p.startContainer, nodeLen tree p.endContainer with
  | some ls, some le =>
      if p.startOffset ≤ ls ∧ p.endOffset ≤ le then
        .ok ⟨p.startContainer, p.startOffset, p.endContainer, p.endOffset⟩
      else .error ()
  | _, _ => .error ()

/-- `range.selectNodeContents(editor); range.collapse(false)`: the
selection collapsed at the end of the editable content (container id 0
stands for the editor root; its length is its child count). -/
def endOfContent (tree : List (ℕ × ℕ)) : RangeState :=
  ⟨0, tree.length, 0, tree.length⟩

/-- Model of `restoreCursorPosition`.  The result is `Except` so that
"raises to the caller" is representable; the `catch` branch collapses
to the end of the editable content and itself cannot throw. A `none`
position (or a missing editor) leaves the current selection alone. -/
def restoreCursorPosition (tree : List (ℕ × ℕ))
    (position : Option CursorPosition) (current : RangeState) :
    Except Unit RangeState :=
  match position with
  | none => .ok current
  | some p =>
      match trySetRange tree p with
      | .ok r => .ok r
      | .error _ => .ok (endOfContent tree)

/-! ## Content mutation and the IME guard
(`handleContentChange`, `handleCompositionStart`, `handleCompositionEnd`) -/

/-- The component state relevant to the mutation coordinator:
the `isComposing` flag, the canonical snapshot, and the number of
snapshot-update passes currently scheduled through `setTimeout`. -/
structure EditorState where
  isComposing : Bool
  snapshot : DraftContent
  deferredUpdates : ℕ
deriving DecidableEq, Repr

/-- Model of `handleContentChange`: replaces the snapshot from the live
DOM markup unless a composed-input sequence is in progress.  (The
cursor capture/restore scheduling it also performs is modelled
separately by `restoreCursorPosition`.) -/
def handleContentChange (st : EditorState) (dom : String) (now : ℕ) :
    EditorState :=
  if st.isComposing then st
  else { st with snapshot := ⟨dom, now⟩ }

/-- Model of `handleCompositionStart`. -/
def handleCompositionStart (st : EditorState) : EditorState :=
  { st with isComposing := true }

/-- Model of `handleCompositionEnd`: clear the flag and schedule exactly
one deferred snapshot-update pass (`setTimeout(..., 0)`); the snapshot
itself is untouched until that pass runs. -/
def handleCompositionEnd (st : EditorState) : EditorState :=
  { st with isComposing := false, deferredUpdates := st.deferredUpdates + 1 }

/-- Running one scheduled pass: re-read the DOM and replace the
snapshot (the callback does not re-check `isComposing`). -/
def runDeferredUpdate (st : EditorState) (dom : String) (now : ℕ) :
    EditorState :=
  if st.deferredUpdates = 0 then st
  else { st with snapshot := ⟨dom, now⟩,
                 deferredUpdates := st.deferredUpdates - 1 }

/-! ## Debounced persistence (the autosave `useEffect`, lines 45–51)

On every snapshot change the effect re-runs: the cleanup clears the
previous 1000 ms timer (cancelling it if it has not fired) and a new
timer is armed capturing the new snapshot.  Time is in milliseconds. -/

/-- The non-string JSON leaf values occurring in the stored object. -/
inductive JsonValue where
  | str (s : String)
  | num (n : ℕ)
deriving DecidableEq, Repr

/-- A JSON object: its field list, in `JSON.stringify` emission order
(insertion order of the underlying JS object). -/
structure JsonObj where
  fields : List (String × JsonValue)
deriving DecidableEq, Repr

/-- Model of `JSON.stringify(content)` for the `DraftContent` state
object: field order follows the interface declaration order used when
the object is built. -/
def jsonStringifyDraft (c : DraftContent) : JsonObj :=
  ⟨[("htmlContent", .str c.htmlContent), ("timestamp", .num c.timestamp)]⟩

/-- One `localStorage.setItem` call: the fixed key and the stored value. -/
def serializeWrite (c : DraftContent) : String × JsonObj :=
  (STORAGE_KEY, jsonStringifyDraft c)

/-- The timer/persistence state: the pending timer (its fire deadline
and the snapshot it captured), and the writes performed so far. -/
structure DebounceState where
  pending : Option (ℕ × DraftContent)
  writes : List (String × JsonObj)
deriving DecidableEq, Repr

def initDebounce : DebounceState := ⟨none, []⟩

/-- Let the pending timer fire if its deadline has passed. -/
def fireIfDue (st : DebounceState) (now : ℕ) : DebounceState :=
  match st.pending with
  | some (deadline, v) =>
      if deadline ≤ now then
        ⟨none, st.writes ++ [serializeWrite v]⟩
      else st
  | none => st

/-- A snapshot change at time `t`: any timer due strictly before the
change has already fired; the effect cleanup then cancels whatever
timer is still pending and arms a fresh 1000 ms timer capturing the
new snapshot. -/
def applyChange (st : DebounceState) (t : ℕ) (c : DraftContent) :
    DebounceState :=
  let st2 := fireIfDue st t
  { st2 with pending := some (t + 1000, c) }

/-- A whole edit sequence, oldest first. -/
def runChanges (st : DebounceState) (changes : List (ℕ × DraftContent)) :
    DebounceState :=
  changes.foldl (fun s p => applyChange s p.1 p.2) st

/-! ## Definitions written from the spec's words (for refinement claims) -/

/-- Spec-words version of the text-node rule of C2: split the raw text
on line breaks, drop all-whitespace lines, and emit each remaining line
*with leading and trailing whitespace trimmed* as a one-run paragraph.
To be compared against `processNode` on a text node. -/
def specTextNodeParagraphs (s : String) : List Para :=
  (jsSplitNl s).filterMap
    (fun line => if jsTrim line = "" then none else some [Run.text (jsTrim line)])

/-- Spec-words version of the stored object of C9: an object with
exactly the fields `content` (the snapshot markup) and `timestamp`.
To be compared against `jsonStringifyDraft`. -/
def specStoredJson (c : DraftContent) : JsonObj :=
  ⟨[("content", .str c.htmlContent), ("timestamp", .num c.timestamp)]⟩

/-- The shape C9 (as amended) asserts of every persisted key/value
pair: the key is the fixed draft key and the value is the JSON object
with exactly the fields `htmlContent` (some snapshot from the given
pool) and `timestamp` (that snapshot's last-modified time). -/
def WriteOk (cs : List DraftContent) (w : String × JsonObj) : Prop :=
  w.1 = STORAGE_KEY ∧ ∃ c ∈ cs, w.2 = jsonStringifyDraft c ∧
    w.2.fields = [("htmlContent", JsonValue.str c.htmlContent),
                  ("timestamp", JsonValue.num c.timestamp)]

/-! ## Supporting lemmas -/

lemma computeExportSize_le (ow oh : ℕ) (hw : 0 < ow) (hh : 0 < oh) :
    (computeExportSize ow oh).1 ≤ 600 ∧ (computeExportSize ow oh).2 ≤ 450 := by
  by_cases hcond : 600 < ow ∨ 450 < oh
  · have hw0 : (0:ℚ) < (ow:ℚ) := by exact_mod_cast hw
    have hh0 : (0:ℚ) < (oh:ℚ) := by exact_mod_cast hh
    have h1 : (ow:ℚ) * min ((600:ℚ)/(ow:ℚ)) ((450:ℚ)/(oh:ℚ)) ≤ 600 := by
      have hm : min ((600:ℚ)/(ow:ℚ)) ((450:ℚ)/(oh:ℚ)) ≤ 600/(ow:ℚ) :=
        min_le_left _ _
      calc (ow:ℚ) * min ((600:ℚ)/(ow:ℚ)) ((450:ℚ)/(oh:ℚ))
          ≤ (ow:ℚ) * (600/(ow:ℚ)) := mul_le_mul_of_nonneg_left hm (le_of_lt hw0)
        _ = 600 := by field_simp
    have h2 : (oh:ℚ) * min ((600:ℚ)/(ow:ℚ)) ((450:ℚ)/(oh:ℚ)) ≤ 450 := by
      have hm : min ((600:ℚ)/(ow:ℚ)) ((450:ℚ)/(oh:ℚ)) ≤ 450/(oh:ℚ) :=
        min_le_right _ _
      calc (oh:ℚ) * min ((600:ℚ)/(ow:ℚ)) ((450:ℚ)/(oh:ℚ))
          ≤ (oh:ℚ) * (450/(oh:ℚ)) := mul_le_mul_of_nonneg_left hm (le_of_lt hh0)
        _ = 450 := by field_simp
    simp only [computeExportSize, if_pos hcond]
    constructor
    · have hcap : ⌊(ow:ℚ) * min ((600:ℚ)/(ow:ℚ)) ((450:ℚ)/(oh:ℚ)) + 1/2⌋ < (601:ℤ) :=
        Int.floor_lt.mpr (by push_cast; linarith)
      unfold jsRound
      omega
    · have hcap : ⌊(oh:ℚ) * min ((600:ℚ)/(ow:ℚ)) ((450:ℚ)/(oh:ℚ)) + 1/2⌋ < (451:ℤ) :=
        Int.floor_lt.mpr (by push_cast; linarith)
      unfold jsRound
      omega
  · push_neg at hcond
    simp only [computeExportSize, if_neg (by omega : ¬(600 < ow ∨ 450 < oh))]
    constructor <;> [exact_mod_cast hcond.1; exact_mod_cast hcond.2]

lemma resolveDim_pos (a b d : ℕ) (hd : 0 < d) : 0 < resolveDim a b d := by
  unfold resolveDim
  split
  · omega
  · split <;> omega

lemma imgParagraphs_image_le (attrs : List (String × String)) (dims : ImgDims) :
    ∀ p ∈ imgParagraphs attrs dims, ∀ d w h, Run.image d w h ∈ p →
      w ≤ 600 ∧ h ≤ 450 := by
  intro p hp d w h hr
  unfold imgParagraphs at hp
  split at hp
  · split at hp
    · simp only [List.mem_singleton] at hp
      subst hp
      simp only [List.mem_singleton, Run.image.injEq] at hr
      obtain ⟨-, hw, hh⟩ := hr
      subst hw; subst hh
      exact computeExportSize_le _ _
        (resolveDim_pos _ _ _ (by norm_num))
        (resolveDim_pos _ _ _ (by norm_num))
    · simp at hp
  · simp at hp

mutual
lemma processNode_image_le (n : HNode) :
    ∀ p ∈ processNode n, ∀ d w h, Run.image d w h ∈ p → w ≤ 600 ∧ h ≤ 450 := by
  cases n with
  | text s =>
      intro p hp d w h hr
      simp only [processNode] at hp
      split at hp
      · simp at hp
      · obtain ⟨line, -, hline⟩ := List.mem_filterMap.mp hp
        split at hline
        · simp at hline
        · simp only [Option.some.injEq] at hline
          subst hline
          simp at hr
  | elem tag attrs classes dims children =>
      intro p hp d w h hr
      simp only [processNode] at hp
      split at hp
      · exact imgParagraphs_image_le _ _ p hp d w h hr
      · split at hp
        · split at hp
          · exact imgParagraphs_image_le _ _ p hp d w h hr
          · simp at hp
        · split at hp
          · exact processNodes_image_le children p hp d w h hr
          · split at hp
            · simp at hp
            · simp only [List.mem_singleton] at hp
              subst hp
              simp at hr

lemma processNodes_image_le (l : List HNode) :
    ∀ p ∈ processNodes l, ∀ d w h, Run.image d w h ∈ p → w ≤ 600 ∧ h ≤ 450 := by
  cases l with
  | nil => intro p hp; simp [processNodes] at hp
  | cons n ns =>
      intro p hp d w h hr
      simp only [processNodes, List.mem_append] at hp
      rcases hp with hp | hp
      · exact processNode_image_le n p hp d w h hr
      · exact processNodes_image_le ns p hp d w h hr
end

lemma runChanges_cons (st : DebounceState) (t : ℕ) (c : DraftContent)
    (tl : List (ℕ × DraftContent)) :
    runChanges st ((t, c) :: tl) = runChanges (applyChange st t c) tl := rfl

lemma runChanges_burst :
    ∀ (changes : List (ℕ × DraftContent)) (st : DebounceState),
      List.Chain' (fun a b => b.1 < a.1 + 1000) changes →
      (∀ d v, st.pending = some (d, v) →
        ∀ h : changes ≠ [], (changes.head h).1 < d) →
      (runChanges st changes).writes = st.writes ∧
      (∀ tc, changes.getLast? = some tc →
        (runChanges st changes).pending = some (tc.1 + 1000, tc.2)) := by
  intro changes
  induction changes with
  | nil =>
      intro st hc hp
      exact ⟨rfl, by simp⟩
  | cons hd tl ih =>
      intro st hc hp
      obtain ⟨t, c⟩ := hd
      have hfire : fireIfDue st t = st := by
        cases hpend : st.pending with
        | none => simp [fireIfDue, hpend]
        | some dv =>
            obtain ⟨d, v⟩ := dv
            have hlt : t < d := by
              have := hp d v hpend (by simp)
              simpa using this
            simp [fireIfDue, hpend, Nat.not_le.mpr hlt]
      have happ : applyChange st t c =
          { st with pending := some (t + 1000, c) } := by
        unfold applyChange
        rw [hfire]
      have hp2 : ∀ d v,
          ({ st with pending := some (t + 1000, c) } : DebounceState).pending =
            some (d, v) →
          ∀ h : tl ≠ [], (tl.head h).1 < d := by
        intro d v hpd h
        simp only [Option.some.injEq, Prod.mk.injEq] at hpd
        cases tl with
        | nil => exact absurd rfl h
        | cons x xs =>
            have hrel := (List.chain'_cons.mp hc).1
            simpa [← hpd.1] using hrel
      obtain ⟨hw, hlast⟩ := ih { st with pending := some (t + 1000, c) }
        (List.Chain'.tail hc) hp2
      rw [runChanges_cons, happ]
      refine ⟨hw, ?_⟩
      intro tc htc
      cases tl with
      | nil =>
          simp only [List.getLast?_singleton, Option.some.injEq] at htc
          subst htc
          simp [runChanges]
      | cons x xs =>
          rw [List.getLast?_cons_cons] at htc
          exact hlast tc htc

lemma fireIfDue_writes_ok (st : DebounceState) (now : ℕ)
    (cs : List DraftContent)
    (hw : ∀ w ∈ st.writes, WriteOk cs w)
    (hp : ∀ d v, st.pending = some (d, v) → v ∈ cs) :
    (∀ w ∈ (fireIfDue st now).writes, WriteOk cs w) ∧
    (∀ d v, (fireIfDue st now).pending = some (d, v) → v ∈ cs) := by
  cases hpend : st.pending with
  | none =>
      have heq : fireIfDue st now = st := by simp [fireIfDue, hpend]
      rw [heq]
      exact ⟨hw, hp⟩
  | some dv =>
      obtain ⟨d, v⟩ := dv
      simp only [fireIfDue, hpend]
      split
      · constructor
        · intro w hwm
          rw [List.mem_append] at hwm
          rcases hwm with h | h
          · exact hw w h
          · rw [List.mem_singleton] at h
            subst h
            exact ⟨rfl, v, hp d v hpend, rfl, rfl⟩
        · intro d2 v2 h
          simp at h
      · exact ⟨hw, hp⟩

lemma applyChange_writes_ok (st : DebounceState) (t : ℕ) (c : DraftContent)
    (cs : List DraftContent)
    (hw : ∀ w ∈ st.writes, WriteOk cs w)
    (hp : ∀ d v, st.pending = some (d, v) → v ∈ cs)
    (hc : c ∈ cs) :
    (∀ w ∈ (applyChange st t c).writes, WriteOk cs w) ∧
    (∀ d v, (applyChange st t c).pending = some (d, v) → v ∈ cs) := by
  have h2 := fireIfDue_writes_ok st t cs hw hp
  unfold applyChange
  refine ⟨fun w hwm => h2.1 w hwm, ?_⟩
  intro d v h
  simp only [Option.some.injEq, Prod.mk.injEq] at h
  rw [← h.2]
  exact hc

lemma runChanges_writes_ok :
    ∀ (changes : List (ℕ × DraftContent)) (st : DebounceState)
      (cs : List DraftContent),
      (∀ w ∈ st.writes, WriteOk cs w) →
      (∀ d v, st.pending = some (d, v) → v ∈ cs) →
      (∀ p ∈ changes, p.2 ∈ cs) →
      (∀ w ∈ (runChanges st changes).writes, WriteOk cs w) ∧
      (∀ d v, (runChanges st changes).pending = some (d, v) → v ∈ cs) := by
  intro changes
  induction changes with
  | nil => intro st cs hw hp hcs; exact ⟨hw, hp⟩
  | cons hd tl ih =>
      intro st cs hw hp hcs
      obtain ⟨t, c⟩ := hd
      have hstep := applyChange_writes_ok st t c cs hw hp
        (hcs (t, c) (by simp))
      rw [runChanges_cons]
      exact ih (applyChange st t c) cs hstep.1 hstep.2
        (fun p hpm => hcs p (by simp [hpm]))

lemma imgParagraphs_of_bad_src (attrs : List (String × String)) (dims : ImgDims)
    (h : getAttr attrs "src" = none ∨
      ∃ src, getAttr attrs "src" = some src ∧
        jsStartsWith "data:image/" src = false) :
    imgParagraphs attrs dims = [] := by
  rcases h with h | ⟨src, hsrc, hpre⟩
  · simp [imgParagraphs, h]
  · simp [imgParagraphs, hsrc, hpre]

lemma processNode_img_eq (attrs : List (String × String)) (classes : List String)
    (dims : ImgDims) (children : List HNode) :
    processNode (.elem "IMG" attrs classes dims children) =
      imgParagraphs attrs dims := by
  simp [processNode]

lemma processNode_span_widget_eq (attrs : List (String × String))
    (classes : List String) (dims : ImgDims) (children : List HNode)
    (h : "inline-image" ∈ classes) :
    processNode (.elem "SPAN" attrs classes dims children) =
      (match firstImgList children with
       | some (a2, d2) => imgParagraphs a2 d2
       | none => []) := by
  simp [processNode, h]

lemma processNodes_append (l1 l2 : List HNode) :
    processNodes (l1 ++ l2) = processNodes l1 ++ processNodes l2 := by
  induction l1 with
  | nil => simp [processNodes]
  | cons n ns ih => simp [processNodes, ih]

/-! ## The claims -/

/-- C1: every image emitted by the export pipeline obeys the aspect-fit
rule — if both intrinsic dimensions are within 600×450 the export size
equals the intrinsic size, otherwise both dimensions are scaled by
`min (600/w) (450/h)` and rounded to the nearest integer; consequently
no exported image exceeds the bound, and in particular intrinsic
(1200, 300) exports as (600, 150), (300, 200) as (300, 200) and
(800, 900) as (400, 450). -/
theorem c1_export_aspect_fit :
    (∀ ow oh : ℕ, 0 < ow → 0 < oh →
      ((ow ≤ 600 ∧ oh ≤ 450) → computeExportSize ow oh = ((ow : ℤ), (oh : ℤ))) ∧
      (¬(ow ≤ 600 ∧ oh ≤ 450) →
        computeExportSize ow oh =
          (jsRound ((ow : ℚ) * min ((600:ℚ)/(ow:ℚ)) ((450:ℚ)/(oh:ℚ))),
           jsRound ((oh : ℚ) * min ((600:ℚ)/(ow:ℚ)) ((450:ℚ)/(oh:ℚ))))) ∧
      (computeExportSize ow oh).1 ≤ 600 ∧ (computeExportSize ow oh).2 ≤ 450) ∧
    (∀ snapshot : List HNode, ∀ p ∈ exportDocument snapshot,
       ∀ d w h, Run.image d w h ∈ p → w ≤ 600 ∧ h ≤ 450) ∧
    computeExportSize 1200 300 = (600, 150) ∧
    computeExportSize 300 200 = (300, 200) ∧
    computeExportSize 800 900 = (400, 450) := by
  refine ⟨?_, ?_, ?_, ?_, ?_⟩
  · intro ow oh hw hh
    refine ⟨?_, ?_, computeExportSize_le ow oh hw hh⟩
    · intro hin
      simp only [computeExportSize, if_neg (by omega : ¬(600 < ow ∨ 450 < oh))]
    · intro hout
      simp only [computeExportSize, if_pos (by omega : 600 < ow ∨ 450 < oh)]
  · intro snapshot p hp d w h hr
    simp only [exportDocument] at hp
    split at hp
    · simp only [List.mem_singleton] at hp
      subst hp
      simp at hr
    · exact processNodes_image_le snapshot p hp d w h hr
  · unfold computeExportSize jsRound
    rw [if_pos (by norm_num)]
    have hmin : ((600 : ℚ) / ((1200:ℕ) : ℚ) ⊓ (450 : ℚ) / ((300:ℕ) : ℚ)) = 1/2 := by
      norm_num [min_def]
    norm_num [hmin, Prod.ext_iff, Int.floor_eq_iff]
  · unfold computeExportSize
    rw [if_neg (by norm_num)]
    norm_num
  · unfold computeExportSize jsRound
    rw [if_pos (by norm_num)]
    have hmin : ((600 : ℚ) / ((800:ℕ) : ℚ) ⊓ (450 : ℚ) / ((900:ℕ) : ℚ)) = 1/2 := by
      norm_num [min_def]
    norm_num [hmin, Prod.ext_iff, Int.floor_eq_iff]

/-- C1 witness: the pipeline bound applied to a concrete one-image
snapshot whose intrinsic size (300, 200) is within the bound, and the
(1200, 300) example. -/
theorem c1_export_aspect_fit_witness :
    ((300:ℤ) ≤ 600 ∧ (200:ℤ) ≤ 450) ∧ computeExportSize 1200 300 = (600, 150) := by
  have hdoc : exportDocument
      [HNode.elem "IMG" [("src", "data:image/png;base64,AAAA")] [] ⟨300, 200, 0, 0⟩ []] =
      [[Run.image "AAAA" 300 200]] := by
    have hd : dataPayload "data:image/png;base64,AAAA" = "AAAA" := by rfl
    have hs : jsStartsWith "data:image/" "data:image/png;base64,AAAA" = true := by rfl
    simp [exportDocument, processNodes, processNode, imgParagraphs, getAttr,
          jsStartsWith, hd, hs, resolveDim, computeExportSize]
  refine ⟨c1_export_aspect_fit.2.1
      [HNode.elem "IMG" [("src", "data:image/png;base64,AAAA")] [] ⟨300, 200, 0, 0⟩ []]
      [Run.image "AAAA" 300 200] (by rw [hdoc]; simp) "AAAA" 300 200 (by simp),
    c1_export_aspect_fit.2.2.1⟩

/-- C2 counterexample: on the text node `"line one\n line two"` the
exporter emits the raw second line `" line two"` (only the whole text
was trimmed), while the claim demands the per-line-trimmed
`"line two"`; so the claimed per-line trimming
(`specTextNodeParagraphs`) disagrees with the code. -/
theorem c2_counterexample :
    processNode (.text "line one\n line two") =
      [[Run.text "line one"], [Run.text " line two"]] ∧
    specTextNodeParagraphs "line one\n line two" =
      [[Run.text "line one"], [Run.text "line two"]] ∧
    processNode (.text "line one\n line two") ≠
      specTextNodeParagraphs "line one\n line two" := by
  have h1 : processNode (.text "line one\n line two") =
      [[Run.text "line one"], [Run.text " line two"]] := by
    simp only [processNode]
    decide
  have h2 : specTextNodeParagraphs "line one\n line two" =
      [[Run.text "line one"], [Run.text "line two"]] := by decide
  refine ⟨h1, h2, ?_⟩
  rw [h1, h2]
  decide

/-- C2 (amended): during export a plain text node's text is trimmed
once as a whole, split on line breaks, and each line whose own trim is
non-empty becomes exactly one paragraph with exactly one run holding
that line verbatim (not individually trimmed); all-whitespace lines
are dropped. In particular `"line one\nline two"` exports as the two
paragraphs `"line one"` and `"line two"`. -/
theorem c2_text_lines_amended :
    (∀ s : String, processNode (.text s) =
      (jsSplitNl (jsTrim s)).filterMap
        (fun line => if jsTrim line = "" then none else some [Run.text line])) ∧
    exportDocument [.text "line one\nline two"] =
      [[Run.text "line one"], [Run.text "line two"]] := by
  constructor
  · intro s
    by_cases h : jsTrim s = ""
    · rw [h]
      simp only [processNode, h, if_pos rfl]
      decide
    · simp only [processNode, h, if_neg h, if_false]
  · simp only [exportDocument, processNodes, processNode]
    decide

/-- C3: whenever the export traversal yields zero paragraphs — in
particular for the empty snapshot — the exported document consists of
exactly one paragraph with exactly one run holding a single space. -/
theorem c3_empty_fallback :
    (∀ snapshot : List HNode, processNodes snapshot = [] →
      exportDocument snapshot = [[Run.text " "]]) ∧
    exportDocument [] = [[Run.text " "]] := by
  constructor
  · intro snapshot h
    simp [exportDocument, h]
  · simp [exportDocument, processNodes]

/-- C3 witness: the fallback at the concrete empty snapshot. -/
theorem c3_empty_fallback_witness : exportDocument [] = [[Run.text " "]] :=
  c3_empty_fallback.1 [] (by simp [processNodes])

/-- C4: export is a pure, deterministic function of the canonical
snapshot — its result does not depend on the live selection or the
focus state of the editable region, and equals the snapshot's
`exportDocument` on every run. -/
theorem c4_export_pure :
    ∀ (snapshot : List HNode) (env1 env2 : EditorEnv),
      handleExportWord snapshot env1 = handleExportWord snapshot env2 ∧
      handleExportWord snapshot env1 = exportDocument snapshot :=
  fun _ _ _ => ⟨rfl, rfl⟩

/-- C5: on an image paste the widget replaces exactly the selected
slice of siblings, and is followed immediately by the zero-width
placeholder text node, then the ordinary space text node, with the
caret placed immediately after the space; content outside the
selection is preserved on both sides. -/
theorem c5_paste_insertion :
    ∀ (siblings : List HNode) (selStart selEnd : ℕ) (widget : HNode),
      selStart ≤ selEnd → selEnd ≤ siblings.length →
      (insertImageWidget siblings selStart selEnd widget).1[selStart]? = some widget ∧
      (insertImageWidget siblings selStart selEnd widget).1[selStart + 1]? =
        some (.text zwsp) ∧
      (insertImageWidget siblings selStart selEnd widget).1[selStart + 2]? =
        some (.text " ") ∧
      (insertImageWidget siblings selStart selEnd widget).2 = selStart + 3 ∧
      (∀ i, i < selStart →
        (insertImageWidget siblings selStart selEnd widget).1[i]? = siblings[i]?) ∧
      (∀ j, (insertImageWidget siblings selStart selEnd widget).1[selStart + 3 + j]? =
        siblings[selEnd + j]?) ∧
      (insertImageWidget siblings selStart selEnd widget).1.length =
        siblings.length - (selEnd - selStart) + 3 := by
  intro siblings s e widget hse hel
  have hlen : (siblings.take s).length = s := by
    rw [List.length_take]
    omega
  unfold insertImageWidget
  refine ⟨?_, ?_, ?_, rfl, ?_, ?_, ?_⟩
  · rw [List.getElem?_append_right (by omega), hlen]
    simp
  · rw [List.getElem?_append_right (by omega), hlen]
    simp
  · rw [List.getElem?_append_right (by omega), hlen]
    simp
  · intro i hi
    rw [List.getElem?_append_left (by omega), List.getElem?_take_of_lt hi]
  · intro j
    rw [List.getElem?_append_right (by omega), hlen]
    have h3 : s + 3 + j - s = j + 3 := by omega
    rw [h3]
    simp only [List.getElem?_cons_succ]
    exact List.getElem?_drop siblings e j
  · simp only [List.length_append, List.length_cons, List.length_take,
      List.length_drop]
    omega

/-- C5 witness: a concrete paste over the selected second sibling. -/
theorem c5_paste_insertion_witness :
    (insertImageWidget [HNode.text "a", HNode.text "b"] 1 2
        (buildImageWidget "w1" "data:image/png;base64,AAAA" "pasted"
          ⟨2, 2, 0, 0⟩)).1[1]? =
      some (buildImageWidget "w1" "data:image/png;base64,AAAA" "pasted"
        ⟨2, 2, 0, 0⟩) ∧
    (insertImageWidget [HNode.text "a", HNode.text "b"] 1 2
        (buildImageWidget "w1" "data:image/png;base64,AAAA" "pasted"
          ⟨2, 2, 0, 0⟩)).1[2]? = some (HNode.text zwsp) ∧
    (insertImageWidget [HNode.text "a", HNode.text "b"] 1 2
        (buildImageWidget "w1" "data:image/png;base64,AAAA" "pasted"
          ⟨2, 2, 0, 0⟩)).2 = 4 := by
  have h := c5_paste_insertion [HNode.text "a", HNode.text "b"] 1 2
    (buildImageWidget "w1" "data:image/png;base64,AAAA" "pasted" ⟨2, 2, 0, 0⟩)
    (by omega) (by decide)
  exact ⟨h.1, h.2.1, h.2.2.2.1⟩

/-- C6: restoring a captured anchor never raises to its caller — in
particular when a referenced container node has been removed — and on
any restoration failure the selection is collapsed to the end of the
editable content. -/
theorem c6_restore_total :
    ∀ (tree : List (ℕ × ℕ)) (position : Option CursorPosition)
      (current : RangeState),
      (∃ r, restoreCursorPosition tree position current = .ok r) ∧
      (∀ p, position = some p → trySetRange tree p = .error () →
        restoreCursorPosition tree position current = .ok (endOfContent tree)) ∧
      (∀ p, position = some p → nodeLen tree p.startContainer = none →
        restoreCursorPosition tree position current = .ok (endOfContent tree)) ∧
      (endOfContent tree).startContainer = (endOfContent tree).endContainer ∧
      (endOfContent tree).startOffset = tree.length ∧
      (endOfContent tree).endOffset = tree.length := by
  intro tree position current
  refine ⟨?_, ?_, ?_, rfl, rfl, rfl⟩
  · cases position with
    | none => exact ⟨current, rfl⟩
    | some p =>
        cases h : trySetRange tree p with
        | ok r => exact ⟨r, by simp [restoreCursorPosition, h]⟩
        | error e => exact ⟨endOfContent tree, by simp [restoreCursorPosition, h]⟩
  · intro p hp herr
    subst hp
    simp [restoreCursorPosition, herr]
  · intro p hp hnone
    subst hp
    have herr : trySetRange tree p = .error () := by
      cases h2 : nodeLen tree p.endContainer <;>
        simp [trySetRange, hnone, h2]
    simp [restoreCursorPosition, herr]

/-- C6 witness: restoring an anchor whose container (id 2) is gone from
the one-node tree collapses to the end of content without raising. -/
theorem c6_restore_total_witness :
    restoreCursorPosition [(1, 5)] (some ⟨2, 0, 2, 0⟩) ⟨1, 0, 1, 0⟩ =
      .ok (endOfContent [(1, 5)]) :=
  (c6_restore_total [(1, 5)] (some ⟨2, 0, 2, 0⟩) ⟨1, 0, 1, 0⟩).2.2.1
    ⟨2, 0, 2, 0⟩ rfl (by decide)

/-- C7: the content-mutation entry point leaves the canonical snapshot
untouched while a composed-input sequence is in progress (and replaces
it otherwise), and composed-input finalization clears the flag and
schedules exactly one deferred snapshot-update pass without touching
the snapshot synchronously. -/
theorem c7_composition_guard :
    ∀ (st : EditorState) (dom : String) (now : ℕ),
      (st.isComposing = true → handleContentChange st dom now = st) ∧
      (st.isComposing = false →
        handleContentChange st dom now = { st with snapshot := ⟨dom, now⟩ }) ∧
      (handleCompositionEnd st).isComposing = false ∧
      (handleCompositionEnd st).deferredUpdates = st.deferredUpdates + 1 ∧
      (handleCompositionEnd st).snapshot = st.snapshot := by
  intro st dom now
  refine ⟨?_, ?_, rfl, rfl, rfl⟩
  · intro h
    simp [handleContentChange, h]
  · intro h
    simp [handleContentChange, h]

/-- C7 witness: a DOM mutation arriving mid-composition does not touch
the snapshot. -/
theorem c7_composition_guard_witness :
    handleContentChange ⟨true, ⟨"<div>a</div>", 5⟩, 0⟩ "<div>ab</div>" 6 =
      ⟨true, ⟨"<div>a</div>", 5⟩, 0⟩ :=
  (c7_composition_guard ⟨true, ⟨"<div>a</div>", 5⟩, 0⟩ "<div>ab</div>" 6).1 rfl

/-- C8: for a burst of snapshot changes in which each change arrives
within the 1000 ms debounce window of the previous one, no write fires
during the burst, at most one write fires afterwards, and the value
written once the window elapses is the serialization of the final
change's snapshot; every change re-arms the pending timer with its own
snapshot (cancellation on supersede). -/
theorem c8_debounced_persistence :
    ∀ (changes : List (ℕ × DraftContent)) (tc : ℕ × DraftContent) (now : ℕ),
      List.Chain' (fun a b => b.1 < a.1 + 1000) changes →
      changes.getLast? = some tc →
      (runChanges initDebounce changes).writes = [] ∧
      (runChanges initDebounce changes).pending = some (tc.1 + 1000, tc.2) ∧
      (fireIfDue (runChanges initDebounce changes) now).writes.length ≤ 1 ∧
      (tc.1 + 1000 ≤ now →
        (fireIfDue (runChanges initDebounce changes) now).writes =
          [serializeWrite tc.2]) ∧
      (∀ (st : DebounceState) (t : ℕ) (c : DraftContent),
        (applyChange st t c).pending = some (t + 1000, c)) := by
  intro changes tc now hchain hlast
  obtain ⟨hw, hpend⟩ := runChanges_burst changes initDebounce hchain
    (by intro d v h; simp [initDebounce] at h)
  have hpend2 := hpend tc hlast
  have hw0 : (runChanges initDebounce changes).writes = [] := hw
  refine ⟨hw0, hpend2, ?_, ?_, fun st t c => rfl⟩
  · simp only [fireIfDue, hpend2]
    split
    · simp [hw0]
    · simp [hw0]
  · intro hdue
    simp only [fireIfDue, hpend2]
    rw [if_pos hdue, hw0]
    simp

/-- C8 witness: a two-change burst 500 ms apart produces no write
during the burst and exactly the final snapshot's write afterwards. -/
theorem c8_debounced_persistence_witness :
    (runChanges initDebounce [(0, ⟨"a", 0⟩), (500, ⟨"ab", 500⟩)]).writes = [] ∧
    (fireIfDue (runChanges initDebounce [(0, ⟨"a", 0⟩), (500, ⟨"ab", 500⟩)])
        2000).writes = [serializeWrite ⟨"ab", 500⟩] := by
  have h := c8_debounced_persistence [(0, ⟨"a", 0⟩), (500, ⟨"ab", 500⟩)]
    (500, ⟨"ab", 500⟩) 2000
    (List.chain'_cons.mpr ⟨by norm_num, List.chain'_singleton _⟩)
    (by rfl)
  exact ⟨h.1, h.2.2.2.1 (by norm_num)⟩

/-- C9 counterexample: the value actually stored under the draft key
has field list `htmlContent, timestamp`, not the claimed
`content, timestamp` (`specStoredJson`). -/
theorem c9_counterexample :
    (fireIfDue (runChanges initDebounce [(0, ⟨"<div>hi</div>", 7⟩)]) 2000).writes =
      [(STORAGE_KEY, jsonStringifyDraft ⟨"<div>hi</div>", 7⟩)] ∧
    (jsonStringifyDraft ⟨"<div>hi</div>", 7⟩).fields.map Prod.fst =
      ["htmlContent", "timestamp"] ∧
    jsonStringifyDraft ⟨"<div>hi</div>", 7⟩ ≠ specStoredJson ⟨"<div>hi</div>", 7⟩ ∧
    ["htmlContent", "timestamp"] ≠ ["content", "timestamp"] := by
  refine ⟨by decide, by decide, by decide, by decide⟩

/-- C9 (amended): every value persisted under the fixed draft key is
the JSON encoding of an object with exactly the fields
`htmlContent` (the snapshot markup string of one of the burst's
changes) and `timestamp` (that snapshot's last-modified time). -/
theorem c9_storage_value :
    ∀ (changes : List (ℕ × DraftContent)) (now : ℕ),
      ∀ w ∈ (fireIfDue (runChanges initDebounce changes) now).writes,
        WriteOk (changes.map Prod.snd) w := by
  intro changes now
  have hrun := runChanges_writes_ok changes initDebounce (changes.map Prod.snd)
    (by intro w h; simp [initDebounce] at h)
    (by intro d v h; simp [initDebounce] at h)
    (by intro p hpm; exact List.mem_map_of_mem _ hpm)
  exact (fireIfDue_writes_ok _ now _ hrun.1 hrun.2).1

/-- C9 witness: the write fired after a one-change burst has the
amended shape. -/
theorem c9_storage_value_witness :
    WriteOk [⟨"<div>hi</div>", 7⟩]
      (STORAGE_KEY, jsonStringifyDraft ⟨"<div>hi</div>", 7⟩) :=
  c9_storage_value [(0, ⟨"<div>hi</div>", 7⟩)] 2000
    (STORAGE_KEY, jsonStringifyDraft ⟨"<div>hi</div>", 7⟩) (by decide)

/-- C10: an image node — a bare `IMG`, or the `IMG` found inside a
`span.inline-image` widget — contributes exactly one image paragraph
when its `src` starts with `data:image/`, and no paragraph at all when
the `src` is absent or not such a data URI; the surrounding traversal
is unaffected either way. -/
theorem c10_image_src_filter :
    ∀ (attrs : List (String × String)) (classes : List String)
      (dims : ImgDims) (children : List HNode),
      (getAttr attrs "src" = none →
        processNode (.elem "IMG" attrs classes dims children) = []) ∧
      (∀ src, getAttr attrs "src" = some src →
        jsStartsWith "data:image/" src = false →
        processNode (.elem "IMG" attrs classes dims children) = []) ∧
      (∀ src, getAttr attrs "src" = some src →
        jsStartsWith "data:image/" src = true →
        processNode (.elem "IMG" attrs classes dims children) =
          [[Run.image (dataPayload src)
              (computeExportSize (resolveDim dims.naturalWidth dims.width 400)
                (resolveDim dims.naturalHeight dims.height 300)).1
              (computeExportSize (resolveDim dims.naturalWidth dims.width 400)
                (resolveDim dims.naturalHeight dims.height 300)).2]]) ∧
      ("inline-image" ∈ classes →
        ∀ attrs2 dims2, firstImgList children = some (attrs2, dims2) →
          (getAttr attrs2 "src" = none ∨
            ∃ src2, getAttr attrs2 "src" = some src2 ∧
              jsStartsWith "data:image/" src2 = false) →
          processNode (.elem "SPAN" attrs classes dims children) = []) ∧
      ("inline-image" ∈ classes → firstImgList children = none →
        processNode (.elem "SPAN" attrs classes dims children) = []) ∧
      (∀ (pre post : List HNode) (n : HNode),
        processNodes (pre ++ n :: post) =
          processNodes pre ++ processNode n ++ processNodes post) := by
  intro attrs classes dims children
  refine ⟨?_, ?_, ?_, ?_, ?_, ?_⟩
  · intro h
    rw [processNode_img_eq]
    exact imgParagraphs_of_bad_src _ _ (Or.inl h)
  · intro src hsrc hpre
    rw [processNode_img_eq]
    exact imgParagraphs_of_bad_src _ _ (Or.inr ⟨src, hsrc, hpre⟩)
  · intro src hsrc hpre
    rw [processNode_img_eq]
    simp [imgParagraphs, hsrc, hpre]
  · intro hmem attrs2 dims2 hfi hbad
    rw [processNode_span_widget_eq _ _ _ _ hmem, hfi]
    exact imgParagraphs_of_bad_src _ _ hbad
  · intro hmem hfi
    rw [processNode_span_widget_eq _ _ _ _ hmem, hfi]
  · intro pre post n
    rw [processNodes_append]
    show processNodes pre ++ processNodes (n :: post) = _
    simp [processNodes, List.append_assoc]

/-- C10 witness: a bare image whose `src` is an `http` URL (not a data
URI) contributes no paragraph. -/
theorem c10_image_src_filter_witness :
    processNode (.elem "IMG" [("src", "http://example.com/a.png")] []
      ⟨100, 100, 0, 0⟩ []) = [] :=
  (c10_image_src_filter [("src", "http://example.com/a.png")] []
      ⟨100, 100, 0, 0⟩ []).2.1 "http://example.com/a.png" (by rfl) (by rfl)

end DraftNote
